import Mathlib

/-!
Shallow embedding of the `magdalenabay` ticket-watch bot.

Source layout:
* `src/scraper.ts` — the `Scraper` class: per-event polling loop and the
  availability decision `processResaleData`.
* `persistence.ts` — SQLite-backed `saveWatch` / `loadWatches` / `deleteWatch`.
* `discord-bot.ts` — the `DiscordBot` registry: `handleWatch`, `handleUnwatch`,
  `startWatch`, `notifyTickets`, `restoreWatches`.

JavaScript numbers that can only ever hold an integer or `-Infinity` in this
program (results of `Math.max(...[])` and sums involving it) are modelled by
the type `JsNum`; exact prices divided by 100 are modelled in `ℚ`.
-/

/-- JavaScript number values reachable in `processResaleData`: an integer or
`-Infinity` (the value of `Math.max()` on an empty spread). -/
inductive JsNum
  | negInf
  | int (n : Int)
  deriving Repr, DecidableEq

/-- JavaScript `+` restricted to the values of `JsNum` (`-Infinity + n = -Infinity`). -/
def JsNum.add : JsNum → JsNum → JsNum
  | .negInf, _ => .negInf
  | _, .negInf => .negInf
  | .int a, .int b => .int (a + b)

/-- Embedding of `Math.max(...l)` on a list of integers: the maximum, or
`-Infinity` when the list is empty. -/
def jsMathMax (l : List Int) : JsNum :=
  l.foldl (fun acc n => match acc with
    | .negInf => .int n
    | .int m => .int (max m n)) .negInf

/-- Embedding of the TS `Offer` type: `{ type: string; price?: { total: number };
quantities?: number[] }`.  The nested `price.total` is collapsed to
`price : Option Int` since `total` is the only field the program reads. -/
structure Offer where
  type : String
  price : Option Int
  quantities : Option (List Int)
  deriving Repr, DecidableEq

/-- Embedding of the TS `TicketInfo` record passed to `onTicketsFound`. -/
structure TicketInfo where
  eventId : String
  totalTickets : JsNum
  offers : Nat
  maxTickets : JsNum
  cheapest : ℚ
  cheapestQuantities : List Int
  deriving Repr, DecidableEq

/-- Embedding of the predicate inside `offers.some(...)` in `processResaleData`:
`o.type === "resale" && o.price?.total && o.quantities?.length`.  JavaScript
truthiness makes a price of `0` and an empty `quantities` array falsy. -/
def isAvailableOffer (o : Offer) : Bool :=
  o.type == "resale"
    && (match o.price with | some t => t != 0 | none => false)
    && (match o.quantities with | some q => !q.isEmpty | none => false)

/-- Embedding of `offers.reduce((a, b) => a.price!.total < b.price!.total ? a : b)`
starting from accumulator `a`.  Reading `.total` of an absent `price` throws a
`TypeError`, modelled by `none`. -/
def reduceCheapest : Offer → List Offer → Option Offer
  | a, [] => some a
  | a, b :: rest =>
    match a.price, b.price with
    | some pa, some pb => reduceCheapest (if pa < pb then a else b) rest
    | _, _ => none

/-- The `offers.reduce(...)` call of `processResaleData`: on an empty array
`reduce` without an initial value throws, modelled by `none`. -/
def jsCheapest : List Offer → Option Offer
  | [] => none
  | o :: rest => reduceCheapest o rest

/-- Per-offer value `Math.max(...(o.quantities ?? [0]))` used by the
`totalTickets` accumulator: absent `quantities` contributes `Math.max(0) = 0`,
a present-but-empty array contributes `Math.max() = -Infinity`. -/
def offerMaxQty (o : Offer) : JsNum :=
  jsMathMax (o.quantities.getD [0])

/-- Outcome of one `processResaleData` call: returned without notifying,
invoked the `onTicketsFound` callback once, or threw a `TypeError`
(reading `.total` / `.join` of `undefined`). -/
inductive ProcessResult
  | silent
  | notified (info : TicketInfo)
  | crashed
  deriving Repr, DecidableEq

/-- Embedding of `Scraper.processResaleData` (src/scraper.ts).  State is the
`seen` flag; the input is `data.offers ?? []`.  Returns the new `seen` flag and
what happened.  The computation mirrors the source line by line:
`available` check, early return, `seen = true`, the `reduce` for `cheapest`
(which throws if any visited offer lacks a price), `maxTickets` over
`offers.flatMap(o => o.quantities ?? [0])`, `totalTickets` as a `reduce` with
initial value `0`, then the `console.log`/callback section which throws if the
chosen `cheapest` lacks `price` or `quantities`. -/
def processResaleData (eventId : String) (seen : Bool) (offers : List Offer) :
    Bool × ProcessResult :=
  let available := offers.any isAvailableOffer
  if !available || seen then (seen, .silent)
  else
    match jsCheapest offers with
    | none => (true, .crashed)
    | some cheapest =>
      let maxTickets := jsMathMax (offers.flatMap (fun o => o.quantities.getD [0]))
      let totalTickets := offers.foldl (fun sum o => JsNum.add sum (offerMaxQty o)) (.int 0)
      match cheapest.price, cheapest.quantities with
      | some pc, some qc =>
        (true, .notified
          { eventId := eventId
            totalTickets := totalTickets
            offers := offers.length
            maxTickets := maxTickets
            cheapest := (pc : ℚ) / 100
            cheapestQuantities := qc })
      | _, _ => (true, .crashed)

/-- One whole run of the polling loop in `Scraper.start`, restricted to the
cycles where resale data was obtained: threads the `seen` flag through
successive `processResaleData` calls and counts callback invocations. -/
def runLoop (eventId : String) (seen : Bool) : List (List Offer) → Bool × Nat
  | [] => (seen, 0)
  | d :: ds =>
    let step := processResaleData eventId seen d
    let rest := runLoop eventId step.1 ds
    (rest.1, (match step.2 with | .notified _ => 1 | _ => 0) + rest.2)

/-- Spec-side notion of an actionable offer, following the spec words:
`kind == "resale"` AND `priceTotal` is present AND `quantities` is non-empty. -/
def specActionable (o : Offer) : Bool :=
  o.type == "resale" && o.price.isSome && !(o.quantities.getD []).isEmpty

/-- Spec-side per-offer bundle size: max of the offer's `quantities`, or 0 if
empty or absent. -/
def maxQtyOr0 (o : Offer) : Int :=
  match o.quantities.getD [] with
  | [] => 0
  | x :: xs => xs.foldl max x

/-- Spec-side `cheapest`: the actionable offer with minimum `priceTotal`, ties
broken by encounter order (first minimum wins). -/
def specCheapest (offers : List Offer) : Option Offer :=
  match offers.filter specActionable with
  | [] => none
  | a :: rest => some (rest.foldl (fun x y => if y.price.getD 0 < x.price.getD 0 then y else x) a)

/-- Spec-side `totalTickets`: sum over actionable offers of their per-offer
maximum quantity. -/
def specTotalTickets (offers : List Offer) : Int :=
  ((offers.filter specActionable).map maxQtyOr0).sum

/-- Spec-side `maxBundleSize`: max over actionable offers of their per-offer
maximum quantity. -/
def specMaxBundle (offers : List Offer) : Int :=
  match (offers.filter specActionable).map maxQtyOr0 with
  | [] => 0
  | x :: xs => xs.foldl max x

section Scratch

example :
    processResaleData "e" false
      [⟨"resale", some 15000, some [2, 4]⟩, ⟨"resale", some 9000, some [1]⟩] =
    (true, .notified ⟨"e", .int 5, 2, .int 4, 90, [1]⟩) := by
  simp [processResaleData, jsCheapest, reduceCheapest, isAvailableOffer, jsMathMax,
    offerMaxQty, JsNum.add]
  norm_num

example :
    processResaleData "e" false [⟨"primary", some 5000, some [1]⟩] =
    (false, .silent) := by decide

example :
    processResaleData "e" false
      [⟨"primary", some 100, some [2]⟩, ⟨"resale", some 200, some [1]⟩] =
    (true, .notified ⟨"e", .int 3, 2, .int 2, 1, [2]⟩) := by
  simp [processResaleData, jsCheapest, reduceCheapest, isAvailableOffer, jsMathMax,
    offerMaxQty, JsNum.add]

end Scratch

theorem processResaleData_seen (e : String) (offers : List Offer) :
    processResaleData e true offers = (true, .silent) := by
  unfold processResaleData
  simp

theorem runLoop_seen (e : String) (ds : List (List Offer)) :
    runLoop e true ds = (true, 0) := by
  induction ds with
  | nil => rfl
  | cons d ds ih =>
    simp [runLoop, processResaleData_seen, ih]

theorem processResaleData_false_cases (e : String) (d : List Offer) :
    processResaleData e false d = (false, .silent) ∨ (processResaleData e false d).1 = true := by
  by_cases h : d.any isAvailableOffer
  · right
    simp only [processResaleData, h, Bool.not_true, Bool.or_false, Bool.false_or]
    rcases hc : jsCheapest d with _ | cheapest
    · simp
    · rcases hp : cheapest.price with _ | pc
      · simp [hp]
      · rcases hq : cheapest.quantities with _ | qc
        · simp [hp, hq]
        · simp [hp, hq]
  · left
    simp [processResaleData, Bool.of_not_eq_true h]

/-- C4: once the `seen` (notified) flag is true, `processResaleData` never
invokes the callback again and leaves the flag true; consequently any run of
the loop invokes the callback at most once. -/
theorem notified_at_most_once :
    (∀ e offers, processResaleData e true offers = (true, .silent)) ∧
    (∀ e seen ds, (runLoop e seen ds).2 ≤ 1) := by
  refine ⟨processResaleData_seen, ?_⟩
  intro e seen ds
  induction ds generalizing seen with
  | nil => simp [runLoop]
  | cons d ds ih =>
    cases seen with
    | true => simp [runLoop_seen]
    | false =>
      rcases processResaleData_false_cases e d with h | h
      · simpa [runLoop, h] using ih false
      · simp only [runLoop, h, runLoop_seen]
        split <;> simp [runLoop_seen, h]

/-- C5: when no offer is actionable in the claim's sense (kind `"resale"`,
`priceTotal` present, `quantities` non-empty), the cycle does nothing: no
callback, `seen` flag unchanged. -/
theorem no_actionable_no_callback (e : String) (seen : Bool) (offers : List Offer)
    (h : ∀ o ∈ offers, ¬(o.type = "resale" ∧ o.price.isSome ∧ o.quantities.getD [] ≠ [])) :
    processResaleData e seen offers = (seen, .silent) := by
  have hav : offers.any isAvailableOffer = false := by
    rw [List.any_eq_false]
    intro o ho hoff
    apply h o ho
    unfold isAvailableOffer at hoff
    simp only [Bool.and_eq_true, beq_iff_eq] at hoff
    obtain ⟨⟨hty, hpr⟩, hq⟩ := hoff
    refine ⟨hty, ?_, ?_⟩
    · rcases hp : o.price with _ | t
      · simp [hp] at hpr
      · simp [hp]
    · rcases hqq : o.quantities with _ | q
      · simp [hqq] at hq
      · simp only [hqq, Option.getD_some]
        simp only [hqq] at hq
        simpa using hq
  unfold processResaleData
  simp [hav]

/-- C5 witness: the spec scenario of a single wrong-kind offer triggers no
callback. -/
theorem no_actionable_no_callback_witness :
    processResaleData "e" false [⟨"primary", some 5000, some [1]⟩] = (false, .silent) :=
  no_actionable_no_callback "e" false [⟨"primary", some 5000, some [1]⟩] (by decide)

/-- Price of an offer with a default of 0; only used where every offer is known
to carry a price. -/
def priceV (o : Offer) : Int := o.price.getD 0

theorem reduceCheapest_lastMin (l : List Offer) :
    ∀ (a : Offer), (∀ o ∈ a :: l, o.price.isSome = true) →
    ∃ r l1 l2, reduceCheapest a l = some r ∧ a :: l = l1 ++ r :: l2 ∧
      (∀ o ∈ l1, priceV r ≤ priceV o) ∧ (∀ o ∈ l2, priceV r < priceV o) := by
  induction l with
  | nil =>
    intro a _
    exact ⟨a, [], [], rfl, rfl, by simp, by simp⟩
  | cons b t ih =>
    intro a hall
    obtain ⟨pa, hpa⟩ := Option.isSome_iff_exists.mp (hall a (by simp))
    obtain ⟨pb, hpb⟩ := Option.isSome_iff_exists.mp (hall b (by simp))
    have hpva : priceV a = pa := by simp [priceV, hpa]
    have hpvb : priceV b = pb := by simp [priceV, hpb]
    have hred : reduceCheapest a (b :: t) = reduceCheapest (if pa < pb then a else b) t := by
      simp only [reduceCheapest, hpa, hpb]
    have hgt : ∀ o ∈ (if pa < pb then a else b) :: t, o.price.isSome = true := by
      intro o ho
      rcases List.mem_cons.mp ho with h1 | h2
      · subst h1
        by_cases hlt : pa < pb <;> simp [hlt, hpa, hpb]
      · exact hall o (by simp [h2])
    obtain ⟨r, l1', l2', hrr, hdec, hl1, hl2⟩ := ih _ hgt
    by_cases hlt : pa < pb
    · rw [if_pos hlt] at hrr hdec
      cases l1' with
      | nil =>
        simp only [List.nil_append] at hdec
        obtain ⟨har, htl⟩ := List.cons.injEq .. ▸ hdec
        refine ⟨r, [], b :: t, by rw [hred, if_pos hlt, hrr], by simp [har.symm], by simp, ?_⟩
        intro o ho
        rcases List.mem_cons.mp ho with h1 | h2
        · subst h1
          rw [har.symm, hpva, hpvb]
          exact hlt
        · exact hl2 o (htl ▸ h2)
      | cons x l1'' =>
        simp only [List.cons_append] at hdec
        obtain ⟨hxa, htl⟩ := List.cons.injEq .. ▸ hdec
        have hra : priceV r ≤ priceV a := hxa ▸ hl1 x (by simp)
        refine ⟨r, a :: b :: l1'', l2', by rw [hred, if_pos hlt, hrr], by rw [htl]; simp, ?_, hl2⟩
        intro o ho
        rcases List.mem_cons.mp ho with h1 | h2
        · subst h1; exact hra
        rcases List.mem_cons.mp h2 with h3 | h4
        · subst h3
          rw [hpvb]
          exact le_of_lt (lt_of_le_of_lt (hpva ▸ hra) hlt)
        · exact hl1 o (by simp [h4])
    · rw [if_neg hlt] at hrr hdec
      have hba : pb ≤ pa := le_of_not_lt hlt
      cases l1' with
      | nil =>
        simp only [List.nil_append] at hdec
        obtain ⟨hbr, htl⟩ := List.cons.injEq .. ▸ hdec
        refine ⟨r, [a], t, by rw [hred, if_neg hlt, hrr], by simp [hbr.symm, htl.symm], ?_, ?_⟩
        · intro o ho
          rcases List.mem_cons.mp ho with h1 | h2
          · subst h1
            rw [hbr.symm, hpva, hpvb]
            exact hba
          · simp at h2
        · intro o ho
          exact hl2 o (htl ▸ ho)
      | cons x l1'' =>
        simp only [List.cons_append] at hdec
        obtain ⟨hxb, htl⟩ := List.cons.injEq .. ▸ hdec
        have hrb : priceV r ≤ priceV b := hxb ▸ hl1 x (by simp)
        refine ⟨r, a :: b :: l1'', l2', by rw [hred, if_neg hlt, hrr], by rw [htl]; simp, ?_, hl2⟩
        intro o ho
        rcases List.mem_cons.mp ho with h1 | h2
        · subst h1
          rw [hpva]
          exact le_trans hrb (hpvb ▸ hba)
        rcases List.mem_cons.mp h2 with h3 | h4
        · subst h3; exact hrb
        · exact hl1 o (by simp [h4])

/-- C2 counterexample: a list with one actionable offer (the resale one at
priceTotal 200) where the report's cheapest fields instead come from the
non-actionable `"primary"` offer at priceTotal 100, because the source's
`reduce` ranges over all offers. -/
theorem cheapest_claim_counterexample :
    specCheapest [⟨"primary", some 100, some [2]⟩, ⟨"resale", some 200, some [1]⟩] =
      some ⟨"resale", some 200, some [1]⟩ ∧
    (processResaleData "e" false
      [⟨"primary", some 100, some [2]⟩, ⟨"resale", some 200, some [1]⟩]).2 =
      .notified ⟨"e", .int 3, 2, .int 2, 1, [2]⟩ ∧
    (1 : ℚ) ≠ 200 / 100 ∧ ([2] : List Int) ≠ [1] := by
  refine ⟨by decide, ?_, by norm_num, by decide⟩
  simp [processResaleData, jsCheapest, reduceCheapest, isAvailableOffer, jsMathMax,
    offerMaxQty, JsNum.add]

/-- C2 (amended): for an offer list with at least one actionable offer,
processed while `seen` is false, in which every offer carries a `priceTotal`
and the selected offer carries `quantities`: the report's cheapest offer is
the offer of minimum `priceTotal` among ALL offers (not just actionable
ones), with ties broken toward the LAST minimum in encounter order; the
report carries `cheapestPrice = priceTotal / 100` and `cheapestQuantities`
of that offer. -/
theorem cheapest_last_min_over_all (e : String) (offers : List Offer) (r : Offer) (q : List Int)
    (hav : offers.any isAvailableOffer = true)
    (hall : ∀ o ∈ offers, o.price.isSome = true)
    (hr : jsCheapest offers = some r)
    (hq : r.quantities = some q) :
    (∃ info, (processResaleData e false offers).2 = .notified info ∧
      info.cheapest = ((priceV r : Int) : ℚ) / 100 ∧ info.cheapestQuantities = q) ∧
    ∃ l1 l2, offers = l1 ++ r :: l2 ∧ (∀ o ∈ l1, priceV r ≤ priceV o) ∧
      ∀ o ∈ l2, priceV r < priceV o := by
  rcases offers with _ | ⟨o0, rest⟩
  · simp [jsCheapest] at hr
  obtain ⟨r', l1, l2, hrr, hdec, hl1, hl2⟩ := reduceCheapest_lastMin rest o0 hall
  have hr' : r' = r := by
    rw [jsCheapest, hrr] at hr
    exact Option.some.injEq .. ▸ hr
  subst hr'
  have hrmem : r' ∈ o0 :: rest := by
    rw [hdec]
    simp
  obtain ⟨pc, hpc⟩ := Option.isSome_iff_exists.mp (hall r' hrmem)
  have hpv : priceV r' = pc := by simp [priceV, hpc]
  constructor
  · have hproc : (processResaleData e false (o0 :: rest)).2 =
        .notified ⟨e, (o0 :: rest).foldl (fun sum o => JsNum.add sum (offerMaxQty o)) (.int 0),
          (o0 :: rest).length, jsMathMax ((o0 :: rest).flatMap (fun o => o.quantities.getD [0])),
          ((pc : Int) : ℚ) / 100, q⟩ := by
      unfold processResaleData
      rw [hr]
      simp [hav, hpc, hq]
    exact ⟨_, hproc, by rw [hpv], rfl⟩
  · exact ⟨l1, l2, hdec, hl1, hl2⟩

/-- C2 amended witness: two offers, the later non-actionable one is cheaper
and is the one reported. -/
theorem cheapest_last_min_over_all_witness :
    (∃ info, (processResaleData "e" false
        [⟨"resale", some 200, some [5]⟩, ⟨"primary", some 100, some [2]⟩]).2 = .notified info ∧
      info.cheapest = ((priceV ⟨"primary", some 100, some [2]⟩ : Int) : ℚ) / 100 ∧
      info.cheapestQuantities = [2]) ∧
    ∃ l1 l2, [(⟨"resale", some 200, some [5]⟩ : Offer), ⟨"primary", some 100, some [2]⟩] =
        l1 ++ (⟨"primary", some 100, some [2]⟩ : Offer) :: l2 ∧
      (∀ o ∈ l1, priceV ⟨"primary", some 100, some [2]⟩ ≤ priceV o) ∧
      ∀ o ∈ l2, priceV ⟨"primary", some 100, some [2]⟩ < priceV o :=
  cheapest_last_min_over_all "e"
    [⟨"resale", some 200, some [5]⟩, ⟨"primary", some 100, some [2]⟩]
    ⟨"primary", some 100, some [2]⟩ [2]
    (by decide) (by decide) (by decide) (by decide)

/-- Sum of a list of JavaScript numbers (`-Infinity` absorbing). -/
def jsSum (l : List JsNum) : JsNum := l.foldr JsNum.add (.int 0)

theorem JsNum.add_assoc (x y z : JsNum) : (x.add y).add z = x.add (y.add z) := by
  cases x <;> cases y <;> cases z <;> simp [JsNum.add, Int.add_assoc]

theorem foldl_add_eq_jsSum (f : Offer → JsNum) (l : List Offer) :
    ∀ acc : JsNum, l.foldl (fun sum o => JsNum.add sum (f o)) acc = acc.add (jsSum (l.map f)) := by
  induction l with
  | nil =>
    intro acc
    cases acc <;> simp [jsSum, JsNum.add]
  | cons x xs ih =>
    intro acc
    simp only [List.foldl_cons, ih, List.map_cons, jsSum, List.foldr_cons]
    rw [JsNum.add_assoc]

theorem processResaleData_notified_fields (e : String) (seen : Bool) (offers : List Offer)
    (info : TicketInfo) (h : (processResaleData e seen offers).2 = .notified info) :
    info.totalTickets = offers.foldl (fun sum o => JsNum.add sum (offerMaxQty o)) (.int 0) ∧
    info.maxTickets = jsMathMax (offers.flatMap (fun o => o.quantities.getD [0])) ∧
    info.offers = offers.length := by
  unfold processResaleData at h
  repeat' split at h
  all_goals try simp only [Prod.snd] at h
  all_goals split at h
  all_goals simp at h
  all_goals try subst h
  all_goals simp

/-- C3 counterexample: the report's `totalTickets` also counts the
non-actionable `"primary"` offer, so it is 5 while the sum over actionable
offers is 2. -/
theorem totalTickets_claim_counterexample :
    (processResaleData "e" false
      [⟨"resale", some 100, some [2]⟩, ⟨"primary", some 50, some [3]⟩]).2 =
      .notified ⟨"e", .int 5, 2, .int 3, 1/2, [3]⟩ ∧
    specTotalTickets [⟨"resale", some 100, some [2]⟩, ⟨"primary", some 50, some [3]⟩] = 2 ∧
    JsNum.int 5 ≠ JsNum.int 2 := by
  refine ⟨?_, by decide, by decide⟩
  simp [processResaleData, jsCheapest, reduceCheapest, isAvailableOffer, jsMathMax,
    offerMaxQty, JsNum.add]
  norm_num

/-- C3 (amended): whenever a report is produced, its `totalTickets` is the sum
over ALL offers (not just actionable ones) of the per-offer value
`Math.max(...(quantities ?? [0]))`: absent `quantities` contributes 0, while a
present-but-empty `quantities` array contributes `-Infinity` (not 0),
absorbing the whole sum. -/
theorem totalTickets_sum_over_all_offers (e : String) (seen : Bool) (offers : List Offer)
    (info : TicketInfo) (h : (processResaleData e seen offers).2 = .notified info) :
    info.totalTickets = jsSum (offers.map offerMaxQty) ∧
    (∀ o : Offer, o.quantities = none → offerMaxQty o = .int 0) ∧
    (∀ o : Offer, o.quantities = some [] → offerMaxQty o = .negInf) := by
  refine ⟨?_, ?_, ?_⟩
  · obtain ⟨ht, _, _⟩ := processResaleData_notified_fields e seen offers info h
    rw [ht]
    have := foldl_add_eq_jsSum offerMaxQty offers (JsNum.int 0)
    simp only [this]
    cases jsSum (offers.map offerMaxQty) <;> simp [JsNum.add]
  · intro o ho
    simp [offerMaxQty, ho, jsMathMax]
  · intro o ho
    simp [offerMaxQty, ho, jsMathMax]

/-- C3 amended witness: the spec's two-resale-offer scenario evaluated
concretely. -/
theorem totalTickets_sum_over_all_offers_witness :
    (⟨"e", .int 5, 2, .int 4, 9000 / 100, [1]⟩ : TicketInfo).totalTickets =
      jsSum ([(⟨"resale", some 15000, some [2, 4]⟩ : Offer),
        ⟨"resale", some 9000, some [1]⟩].map offerMaxQty) ∧
    (∀ o : Offer, o.quantities = none → offerMaxQty o = .int 0) ∧
    (∀ o : Offer, o.quantities = some [] → offerMaxQty o = .negInf) :=
  totalTickets_sum_over_all_offers "e" false
    [⟨"resale", some 15000, some [2, 4]⟩, ⟨"resale", some 9000, some [1]⟩]
    ⟨"e", .int 5, 2, .int 4, 9000 / 100, [1]⟩
    (by simp [processResaleData, jsCheapest, reduceCheapest, isAvailableOffer, jsMathMax,
      offerMaxQty, JsNum.add])

/-- Binary maximum on JavaScript numbers (`-Infinity` is the identity). -/
def JsNum.max2 : JsNum → JsNum → JsNum
  | .negInf, y => y
  | x, .negInf => x
  | .int a, .int b => .int (max a b)

/-- Maximum of a list of JavaScript numbers. -/
def jsMaxOfList (l : List JsNum) : JsNum := l.foldr JsNum.max2 .negInf

theorem JsNum.max2_assoc (x y z : JsNum) : (x.max2 y).max2 z = x.max2 (y.max2 z) := by
  cases x <;> cases y <;> cases z <;> simp [JsNum.max2, max_assoc]

theorem foldl_jsMathMax_step (l : List Int) : ∀ a : JsNum,
    l.foldl (fun acc n => match acc with
      | JsNum.negInf => JsNum.int n
      | JsNum.int m => JsNum.int (max m n)) a = JsNum.max2 a (jsMathMax l) := by
  have hstep : ∀ (b : JsNum) (n : Int),
      (match b with
        | JsNum.negInf => JsNum.int n
        | JsNum.int m => JsNum.int (max m n)) = JsNum.max2 b (.int n) := by
    intro b n
    cases b <;> rfl
  induction l with
  | nil =>
    intro a
    cases a <;> rfl
  | cons x xs ih =>
    intro a
    have hcons : jsMathMax (x :: xs) = JsNum.max2 (.int x) (jsMathMax xs) := ih (JsNum.int x)
    simp only [List.foldl_cons]
    rw [ih, hstep, hcons, JsNum.max2_assoc]

theorem jsMathMax_append (l1 l2 : List Int) :
    jsMathMax (l1 ++ l2) = JsNum.max2 (jsMathMax l1) (jsMathMax l2) := by
  show (l1 ++ l2).foldl _ JsNum.negInf = _
  rw [List.foldl_append]
  exact foldl_jsMathMax_step l2 (jsMathMax l1)

theorem jsMathMax_flatMap (offers : List Offer) :
    jsMathMax (offers.flatMap (fun o => o.quantities.getD [0])) =
      jsMaxOfList (offers.map (fun o => jsMathMax (o.quantities.getD [0]))) := by
  induction offers with
  | nil => rfl
  | cons o os ih =>
    simp only [List.flatMap_cons, List.map_cons, jsMathMax_append, ih]
    rfl

/-- C6 counterexample: the report's `maxBundleSize` also ranges over the
non-actionable `"primary"` offer, so it is 9 while the max over actionable
offers is 1. -/
theorem maxBundle_claim_counterexample :
    (processResaleData "e" false
      [⟨"resale", some 100, some [1]⟩, ⟨"primary", some 50, some [9]⟩]).2 =
      .notified ⟨"e", .int 10, 2, .int 9, 1/2, [9]⟩ ∧
    specMaxBundle [⟨"resale", some 100, some [1]⟩, ⟨"primary", some 50, some [9]⟩] = 1 ∧
    JsNum.int 9 ≠ JsNum.int 1 := by
  refine ⟨?_, by decide, by decide⟩
  simp [processResaleData, jsCheapest, reduceCheapest, isAvailableOffer, jsMathMax,
    offerMaxQty, JsNum.add]
  norm_num

/-- C6 (amended): whenever a report is produced, its `maxBundleSize` is the
maximum over ALL offers (not just actionable ones) of the per-offer value
`Math.max(...(quantities ?? [0]))`; the spec's concrete two-resale-offer
scenario holds as stated: totalTickets 5, offerCount 2, maxBundleSize 4,
cheapestPrice 90.00, cheapestQuantities [1]. -/
theorem maxBundle_over_all_offers (e : String) (seen : Bool) (offers : List Offer)
    (info : TicketInfo) (h : (processResaleData e seen offers).2 = .notified info) :
    info.maxTickets = jsMaxOfList (offers.map (fun o => jsMathMax (o.quantities.getD [0]))) ∧
    processResaleData "e" false
      [⟨"resale", some 15000, some [2, 4]⟩, ⟨"resale", some 9000, some [1]⟩] =
      (true, .notified ⟨"e", .int 5, 2, .int 4, 90, [1]⟩) := by
  constructor
  · obtain ⟨_, hm, _⟩ := processResaleData_notified_fields e seen offers info h
    rw [hm, jsMathMax_flatMap]
  · simp [processResaleData, jsCheapest, reduceCheapest, isAvailableOffer, jsMathMax,
      offerMaxQty, JsNum.add]
    norm_num

/-- C6 amended witness: the scenario input instantiates the amended claim. -/
theorem maxBundle_over_all_offers_witness :
    (⟨"e", .int 5, 2, .int 4, 9000 / 100, [1]⟩ : TicketInfo).maxTickets =
      jsMaxOfList ([(⟨"resale", some 15000, some [2, 4]⟩ : Offer),
        ⟨"resale", some 9000, some [1]⟩].map (fun o => jsMathMax (o.quantities.getD [0]))) ∧
    processResaleData "e" false
      [⟨"resale", some 15000, some [2, 4]⟩, ⟨"resale", some 9000, some [1]⟩] =
      (true, .notified ⟨"e", .int 5, 2, .int 4, 90, [1]⟩) :=
  maxBundle_over_all_offers "e" false
    [⟨"resale", some 15000, some [2, 4]⟩, ⟨"resale", some 9000, some [1]⟩]
    ⟨"e", .int 5, 2, .int 4, 9000 / 100, [1]⟩
    (by simp [processResaleData, jsCheapest, reduceCheapest, isAvailableOffer, jsMathMax,
      offerMaxQty, JsNum.add])

/-- Embedding of one row of the SQLite `watches` table
(`event_id TEXT PRIMARY KEY, channel_id TEXT, ping_users TEXT, poll_minutes INTEGER`). -/
structure Row where
  event_id : String
  channel_id : String
  ping_users : String
  poll_minutes : Int
  deriving Repr, DecidableEq

/-- Embedding of the TS `WatchData` record of persistence.ts. -/
structure WatchData where
  eventId : String
  channelId : String
  pingUsers : List String
  pollMinutes : Int
  deriving Repr, DecidableEq

/-- Escape of one character inside a JSON string literal, as emitted by
`JSON.stringify` for strings without control characters: only the quote and
the backslash are escaped. -/
def escChar (c : Char) : List Char :=
  if c = '"' ∨ c = '\\' then ['\\', c] else [c]

/-- Body of a JSON string literal for `s`. -/
def escString (s : List Char) : List Char := (s.map escChar).flatten

/-- A JSON string literal: `"` body `"`. -/
def encodeStringChars (s : List Char) : List Char :=
  '"' :: escString s ++ ['"']

/-- Comma-separated JSON string literals. -/
def encodeElemsChars : List (List Char) → List Char
  | [] => []
  | [s] => encodeStringChars s
  | s :: rest => encodeStringChars s ++ ',' :: encodeElemsChars rest

/-- Model of `JSON.stringify` on an array of strings (without control
characters, where stringify needs no `\\u` escapes). -/
def encodeStringList (l : List String) : String :=
  ⟨'[' :: encodeElemsChars (l.map String.data) ++ [']']⟩

/-- Model of `JSON.parse` on a JSON string-literal body: characters up to the
closing quote, undoing `\"` and `\\` escapes; other escapes are outside the
modelled fragment and rejected. -/
def parseStringBody : List Char → Option (List Char × List Char)
  | [] => none
  | c :: rest =>
    if c = '"' then some ([], rest)
    else if c = '\\' then
      match rest with
      | [] => none
      | d :: rest2 =>
        if d = '"' ∨ d = '\\' then
          (parseStringBody rest2).map (fun p => (d :: p.1, p.2))
        else none
    else (parseStringBody rest).map (fun p => (c :: p.1, p.2))

/-- Comma-separated string literals followed by `]`; `fuel` bounds recursion
depth and is instantiated with the input length, enough for one unit per
element. -/
def parseElems : Nat → List Char → Option (List (List Char) × List Char)
  | 0, _ => none
  | fuel + 1, l =>
    match l with
    | '"' :: rest =>
      match parseStringBody rest with
      | none => none
      | some (s, r) =>
        match r with
        | ',' :: r2 =>
          match parseElems fuel r2 with
          | none => none
          | some (ss, r3) => some (s :: ss, r3)
        | ']' :: r2 => some ([s], r2)
        | _ => none
    | _ => none

/-- Model of `JSON.parse` restricted to arrays of strings, the shape stored in
the `ping_users` column. -/
def parseStringList (s : String) : Option (List String) :=
  match s.data with
  | ['[', ']'] => some []
  | '[' :: rest =>
    match parseElems rest.length rest with
    | some (ss, []) => some (ss.map (fun cs => String.mk cs))
    | _ => none
  | _ => none

/-- Decoding of one row inside `loadWatches`: `JSON.parse(row.ping_users)`
failing is modelled by `none`. -/
def rowToWatch (r : Row) : Option WatchData :=
  (parseStringList r.ping_users).map (fun ps =>
    ⟨r.event_id, r.channel_id, ps, r.poll_minutes⟩)

/-- Embedding of `loadWatches` (persistence.ts): maps every row through the
decoder; a `JSON.parse` throw on any row aborts the whole `try` block and the
catch returns `[]`. -/
def loadWatches (db : List Row) : List WatchData :=
  match db.mapM rowToWatch with
  | some ws => ws
  | none => []

/-- Embedding of `saveWatch` (persistence.ts): `INSERT OR REPLACE` keyed on
the `event_id` primary key deletes any conflicting row and appends the fresh
row (new rowid, so it scans last in `SELECT *`). -/
def saveWatch (db : List Row) (w : WatchData) : List Row :=
  db.filter (fun r => r.event_id != w.eventId) ++
    [⟨w.eventId, w.channelId, encodeStringList w.pingUsers, w.pollMinutes⟩]

/-- Embedding of `deleteWatch` (persistence.ts). -/
def deleteWatch (db : List Row) (eventId : String) : List Row :=
  db.filter (fun r => r.event_id != eventId)

section ScratchPersist

example : parseStringList (encodeStringList ["123", "45"]) = some ["123", "45"] := by decide

example : parseStringList (encodeStringList []) = some [] := by decide

example : parseStringList (encodeStringList ["a\"b", "c\\d"]) = some ["a\"b", "c\\d"] := by
  decide

end ScratchPersist

theorem parseStringBody_encode (s : List Char) (t : List Char) :
    parseStringBody (escString s ++ '"' :: t) = some (s, t) := by
  induction s with
  | nil =>
    show parseStringBody (escString [] ++ '"' :: t) = some ([], t)
    unfold escString
    simp only [List.map_nil, List.flatten_nil, List.nil_append]
    unfold parseStringBody
    simp
  | cons c cs ih =>
    by_cases hc : c = '"' ∨ c = '\\'
    · have he : escString (c :: cs) = '\\' :: c :: escString cs := by
        simp [escString, escChar, hc]
      have h1 : ¬(('\\' : Char) = '"') := by decide
      rw [he]
      simp only [List.cons_append]
      unfold parseStringBody
      simp [h1, hc, ih]
    · have h1 : ¬(c = '"') := fun h => hc (Or.inl h)
      have h2 : ¬(c = '\\') := fun h => hc (Or.inr h)
      have he : escString (c :: cs) = c :: escString cs := by
        simp [escString, escChar, hc]
      rw [he]
      simp only [List.cons_append]
      unfold parseStringBody
      simp [h1, h2, ih]

theorem parseElems_encode (l : List (List Char)) :
    ∀ (fuel : Nat) (t : List Char), l.length ≤ fuel → l ≠ [] →
    parseElems fuel (encodeElemsChars l ++ ']' :: t) = some (l, t) := by
  induction l with
  | nil =>
    intro fuel t _ hne
    exact absurd rfl hne
  | cons s rest ih =>
    intro fuel t hlen _
    obtain ⟨f, rfl⟩ : ∃ f, fuel = f + 1 := by
      cases fuel with
      | zero => simp at hlen
      | succ f => exact ⟨f, rfl⟩
    cases rest with
    | nil =>
      have he : encodeElemsChars [s] ++ ']' :: t = '"' :: (escString s ++ '"' :: (']' :: t)) := by
        simp [encodeElemsChars, encodeStringChars]
      rw [he]
      unfold parseElems
      simp [parseStringBody_encode]
    | cons s2 rest2 =>
      have he : encodeElemsChars (s :: s2 :: rest2) ++ ']' :: t =
          '"' :: (escString s ++ '"' :: (',' :: (encodeElemsChars (s2 :: rest2) ++ ']' :: t))) := by
        simp [encodeElemsChars, encodeStringChars]
      rw [he]
      unfold parseElems
      simp only [parseStringBody_encode]
      rw [ih f t (by simpa using hlen) (by simp)]

theorem length_le_encodeElemsChars (L : List (List Char)) :
    L.length ≤ (encodeElemsChars L).length := by
  induction L with
  | nil => simp [encodeElemsChars]
  | cons s rest ih =>
    cases rest with
    | nil =>
      simp [encodeElemsChars, encodeStringChars]
    | cons s2 r2 =>
      simp only [encodeElemsChars, List.length_append, List.length_cons] at *
      omega

theorem parseStringList_encode (l : List String) :
    parseStringList (encodeStringList l) = some l := by
  cases l with
  | nil => rfl
  | cons x xs =>
    have hu : ∃ u, encodeElemsChars ((x :: xs).map String.data) = '"' :: u := by
      cases xs with
      | nil => exact ⟨escString x.data ++ ['"'], by simp [encodeElemsChars, encodeStringChars]⟩
      | cons y ys =>
        exact ⟨escString x.data ++ '"' :: ',' :: encodeElemsChars ((y :: ys).map String.data),
          by simp [encodeElemsChars, encodeStringChars]⟩
    obtain ⟨u, hu⟩ := hu
    have hpe : parseElems ('"' :: (u ++ [']'])).length ('"' :: (u ++ [']'])) =
        some ((x :: xs).map String.data, []) := by
      have hlen : ((x :: xs).map String.data).length ≤ ('"' :: (u ++ [']'])).length := by
        have h2 := length_le_encodeElemsChars ((x :: xs).map String.data)
        rw [hu] at h2
        simp only [List.length_cons, List.length_append] at *
        omega
      have h3 := parseElems_encode ((x :: xs).map String.data)
        ('"' :: (u ++ [']'])).length [] hlen (by simp)
      rw [hu] at h3
      simpa using h3
    have hdata : (encodeStringList (x :: xs)).data = '[' :: '"' :: (u ++ [']']) := by
      show '[' :: encodeElemsChars ((x :: xs).map String.data) ++ [']'] = _
      rw [hu]
      simp
    have hmk : (((x :: xs).map String.data).map (fun cs => String.mk cs)) = x :: xs := by
      rw [List.map_map]
      have hcomp : ((fun cs => String.mk cs) ∘ String.data) = id := by
        funext z
        rfl
      rw [hcomp, List.map_id]
    unfold parseStringList
    rw [hdata]
    simp only [List.length_cons, List.length_append, List.length_nil] at hpe
    simp [hpe, hmk]
    have hcomp2 : ((fun cs => String.mk cs) ∘ String.data) = id := by
      funext z
      rfl
    rw [hcomp2, List.map_id]

theorem mapM_rowToWatch_some (rows : List Row)
    (h : ∀ r ∈ rows, (rowToWatch r).isSome = true) :
    ∃ ws, rows.mapM rowToWatch = some ws ∧
      ∀ x ∈ ws, ∃ r ∈ rows, rowToWatch r = some x := by
  induction rows with
  | nil => exact ⟨[], rfl, by simp⟩
  | cons r rs ih =>
    obtain ⟨w0, hw0⟩ := Option.isSome_iff_exists.mp (h r (by simp))
    obtain ⟨ws, hws, hmem⟩ := ih (fun x hx => h x (by simp [hx]))
    refine ⟨w0 :: ws, ?_, ?_⟩
    · rw [List.mapM_cons, hw0, hws]
      rfl
    · intro x hx
      rcases List.mem_cons.mp hx with h1 | h2
      · exact ⟨r, by simp, h1 ▸ hw0⟩
      · obtain ⟨r2, hr2, hrx⟩ := hmem x h2
        exact ⟨r2, by simp [hr2], hrx⟩

theorem rowToWatch_eventId (r : Row) (x : WatchData) (h : rowToWatch r = some x) :
    x.eventId = r.event_id := by
  unfold rowToWatch at h
  cases hp : parseStringList r.ping_users with
  | none => rw [hp] at h; simp at h
  | some ps =>
    rw [hp] at h
    simp only [Option.map_some', Option.some.injEq] at h
    rw [← h]

theorem rowToWatch_encode (w : WatchData) :
    rowToWatch ⟨w.eventId, w.channelId, encodeStringList w.pingUsers, w.pollMinutes⟩ = some w := by
  unfold rowToWatch
  rw [parseStringList_encode]
  rfl

/-- C10: the persisted store keeps at most one row per `eventId`: `saveWatch`
is an upsert on the `event_id` primary key, so after `saveWatch w` — also when
a row for `w.eventId` already exists — the keys stay pairwise distinct and
`loadWatches` returns exactly one record for `w.eventId`, equal to `w`, its
`pingUsers` having round-tripped through the JSON encoding.  The hypotheses:
the starting store respects the primary key, every stored `ping_users` cell
decodes, and the saved strings have no control characters (the domain on
which the embedded codec models `JSON.stringify`/`JSON.parse`). -/
theorem saveWatch_upsert_roundtrip (db : List Row) (w : WatchData)
    (hnd : (db.map Row.event_id).Nodup)
    (hwf : ∀ r ∈ db, (rowToWatch r).isSome = true)
    (hplain : ∀ u ∈ w.pingUsers, ∀ c ∈ u.data, 32 ≤ c.toNat) :
    ((saveWatch db w).map Row.event_id).Nodup ∧
    (loadWatches (saveWatch db w)).filter (fun x => x.eventId == w.eventId) = [w] := by
  have hsub : (db.filter (fun r => r.event_id != w.eventId)).Sublist db :=
    List.filter_sublist db
  constructor
  · unfold saveWatch
    rw [List.map_append]
    rw [List.nodup_append]
    refine ⟨hnd.sublist (hsub.map Row.event_id), by simp, ?_⟩
    intro a ha hb
    simp only [List.map_cons, List.map_nil, List.mem_singleton] at hb
    obtain ⟨r, hr, hra⟩ := List.mem_map.mp ha
    have := List.of_mem_filter hr
    simp only [bne_iff_ne, ne_eq] at this
    exact this (by rw [hra, hb])
  · obtain ⟨ws, hws, hmem⟩ := mapM_rowToWatch_some
      (db.filter (fun r => r.event_id != w.eventId))
      (fun r hr => hwf r (List.mem_of_mem_filter hr))
    have hload : loadWatches (saveWatch db w) = ws ++ [w] := by
      unfold loadWatches saveWatch
      rw [List.mapM_append, hws, List.mapM_cons, rowToWatch_encode]
      rfl
    rw [hload, List.filter_append]
    have hws_none : ws.filter (fun x => x.eventId == w.eventId) = [] := by
      rw [List.filter_eq_nil_iff]
      intro x hx
      obtain ⟨r, hr, hrx⟩ := hmem x hx
      have hne := List.of_mem_filter hr
      simp only [bne_iff_ne, ne_eq] at hne
      simp only [beq_iff_eq]
      rw [rowToWatch_eventId r x hrx]
      exact hne
    rw [hws_none]
    simp

/-- C10 witness: a store already holding a row for `"a"` upserted with a new
record for the same `eventId`. -/
theorem saveWatch_upsert_roundtrip_witness :
    ((saveWatch [⟨"a", "c1", encodeStringList ["7"], 5⟩]
        ⟨"a", "c2", ["123", "45"], 10⟩).map Row.event_id).Nodup ∧
    (loadWatches (saveWatch [⟨"a", "c1", encodeStringList ["7"], 5⟩]
        ⟨"a", "c2", ["123", "45"], 10⟩)).filter
      (fun x => x.eventId == ("a" : String)) = [⟨"a", "c2", ["123", "45"], 10⟩] :=
  saveWatch_upsert_roundtrip [⟨"a", "c1", encodeStringList ["7"], 5⟩]
    ⟨"a", "c2", ["123", "45"], 10⟩ (by decide) (by decide) (by decide)

/-- Runtime state of one `Scraper` instance: the `running` and `seen` flags,
the immutable `config` fields, and whether a browser has been launched
(models the `browser?: Browser` field being set). -/
structure ScraperState where
  eventId : String
  pollMinutes : Int
  running : Bool
  seen : Bool
  browserLaunched : Bool
  deriving Repr, DecidableEq

/-- What a call to `Scraper.start` did at its entry. -/
inductive StartOutcome
  | noop
  | launched
  deriving Repr, DecidableEq

/-- Embedding of the entry of `Scraper.start` (src/scraper.ts):
`if (this.running) return;` then `this.running = true` and
`chromium.launch(...)`.  The polling loop that follows is modelled
separately by `runLoop`. -/
def Scraper.start (s : ScraperState) : ScraperState × StartOutcome :=
  if s.running then (s, .noop)
  else ({ s with running := true, browserLaunched := true }, .launched)

/-- C9: calling `start` on a scraper whose `running` flag is already true is a
no-op: the state — `running`, `seen` and the config fields — is returned
unchanged and no browser launch happens. -/
theorem start_noop_when_running (s : ScraperState) (h : s.running = true) :
    Scraper.start s = (s, .noop) := by
  simp [Scraper.start, h]

/-- C9 witness: a concrete running scraper. -/
theorem start_noop_when_running_witness :
    Scraper.start ⟨"e1", 5, true, false, true⟩ = (⟨"e1", 5, true, false, true⟩, .noop) :=
  start_noop_when_running ⟨"e1", 5, true, false, true⟩ rfl

/-- One entry of the bot's `watches` map: the `WatchConfig` record
`{...watch, scraper}`. -/
structure WatchEntry where
  eventId : String
  channelId : String
  pingUsers : List String
  pollMinutes : Int
  scraper : ScraperState
  deriving Repr, DecidableEq

/-- State of the `DiscordBot` registry: the `eventId → WatchConfig` map
(insertion-ordered, as a JS `Map`) and the persisted SQLite store. -/
structure BotState where
  watches : List (String × WatchEntry)
  store : List Row
  deriving Repr, DecidableEq

/-- Externally visible actions of the registry. -/
inductive BotAction
  | startedLoop (eventId : String)
  | stoppedLoop (eventId : String)
  | sentMessage (channelId : String) (info : TicketInfo)
  deriving Repr, DecidableEq

/-- Reply of the `/watch` command handler. -/
inductive WatchReply
  | alreadyWatching
  | started
  deriving Repr, DecidableEq

/-- Reply of the `/unwatch` command handler. -/
inductive UnwatchReply
  | notWatching
  | stopping
  deriving Repr, DecidableEq

/-- JS `Map.get`. -/
def mapGet (m : List (String × WatchEntry)) (k : String) : Option WatchEntry :=
  (m.find? (fun p => p.1 == k)).map Prod.snd

/-- JS `Map.set`: overwrites in place, or appends in insertion order. -/
def mapSet (m : List (String × WatchEntry)) (k : String) (v : WatchEntry) :
    List (String × WatchEntry) :=
  if (m.find? (fun p => p.1 == k)).isSome then
    m.map (fun p => if p.1 == k then (k, v) else p)
  else m ++ [(k, v)]

/-- JS `Map.delete`. -/
def mapDelete (m : List (String × WatchEntry)) (k : String) : List (String × WatchEntry) :=
  m.filter (fun p => p.1 != k)

/-- Embedding of `DiscordBot.startWatch`: builds a `Scraper`, stores
`{...watch, scraper}` in the map, then calls `scraper.start()`; the stored
entry holds the scraper state as mutated by that call. -/
def startWatch (s : BotState) (w : WatchData) : BotState × List BotAction :=
  let scraper0 : ScraperState := ⟨w.eventId, w.pollMinutes, false, false, false⟩
  let scraper1 := (Scraper.start scraper0).1
  (⟨mapSet s.watches w.eventId ⟨w.eventId, w.channelId, w.pingUsers, w.pollMinutes, scraper1⟩,
      s.store⟩,
    [.startedLoop w.eventId])

/-- Embedding of the mention-stripping pipeline of `handleWatch`:
`usersStr.split(",").map(id => id.trim().replace(/[<@!>]/g, "")).filter(id => id)`. -/
def parsePingUsers (usersStr : String) : List String :=
  ((usersStr.split (fun c => c = ',')).map (fun t =>
    ⟨t.trim.data.filter (fun c => !(c = '<' ∨ c = '@' ∨ c = '!' ∨ c = '>'))⟩)).filter
    (fun t => t != "")

/-- Embedding of `DiscordBot.handleWatch` (discord-bot.ts): replies
`AlreadyWatching` and stops if the map already has the event, otherwise
parses the users, starts the watch and persists it. -/
def handleWatch (s : BotState) (eventId usersStr channelId : String) (interval : Option Int) :
    BotState × List BotAction × WatchReply :=
  let pollMinutes := interval.getD 5
  if (mapGet s.watches eventId).isSome then (s, [], .alreadyWatching)
  else
    let wd : WatchData := ⟨eventId, channelId, parsePingUsers usersStr, pollMinutes⟩
    let (s1, acts) := startWatch s wd
    (⟨s1.watches, saveWatch s1.store wd⟩, acts, .started)

/-- Embedding of `DiscordBot.handleUnwatch` (discord-bot.ts): replies
`NotWatching` and stops if the event is unknown; otherwise stops the scraper
in the background, removes the map entry and deletes the persisted row. -/
def handleUnwatch (s : BotState) (eventId : String) :
    BotState × List BotAction × UnwatchReply :=
  match mapGet s.watches eventId with
  | none => (s, [], .notWatching)
  | some _ =>
    (⟨mapDelete s.watches eventId, deleteWatch s.store eventId⟩,
      [.stoppedLoop eventId], .stopping)

/-- Embedding of `DiscordBot.notifyTickets` (discord-bot.ts): looks up the
watch, resolves the channel (external; modelled as a successful text-channel
fetch) and sends the report message.  The map and the store are untouched. -/
def notifyTickets (s : BotState) (eventId : String) (info : TicketInfo) :
    BotState × List BotAction :=
  match mapGet s.watches eventId with
  | none => (s, [])
  | some w => (s, [.sentMessage w.channelId info])

/-- C7: a `/watch` for an `eventId` that already has an active watch fails
with `AlreadyWatching`: the state (map and store) is returned unchanged and
no loop-start action is emitted, preserving at most one loop per `eventId`. -/
theorem register_twice_fails (s : BotState) (eventId usersStr channelId : String)
    (interval : Option Int) (h : (mapGet s.watches eventId).isSome = true) :
    handleWatch s eventId usersStr channelId interval = (s, [], .alreadyWatching) := by
  simp [handleWatch, h]

/-- C7 witness: a registry already watching `"e1"`. -/
theorem register_twice_fails_witness :
    handleWatch ⟨[("e1", ⟨"e1", "chan", ["u1"], 5, ⟨"e1", 5, true, false, true⟩⟩)],
        [⟨"e1", "chan", encodeStringList ["u1"], 5⟩]⟩ "e1" "u2" "chan2" (some 7) =
      (⟨[("e1", ⟨"e1", "chan", ["u1"], 5, ⟨"e1", 5, true, false, true⟩⟩)],
        [⟨"e1", "chan", encodeStringList ["u1"], 5⟩]⟩, [], .alreadyWatching) :=
  register_twice_fails
    ⟨[("e1", ⟨"e1", "chan", ["u1"], 5, ⟨"e1", 5, true, false, true⟩⟩)],
      [⟨"e1", "chan", encodeStringList ["u1"], 5⟩]⟩ "e1" "u2" "chan2" (some 7) (by decide)

/-- C8: an `/unwatch` for an `eventId` with no active watch fails with
`NotWatching` and leaves the registry unchanged: no map entry removed, no
loop-stop action, store untouched. -/
theorem unregister_unknown_fails (s : BotState) (eventId : String)
    (h : mapGet s.watches eventId = none) :
    handleUnwatch s eventId = (s, [], .notWatching) := by
  simp [handleUnwatch, h]

/-- C8 witness: unwatching `"e2"` on a registry that only watches `"e1"`. -/
theorem unregister_unknown_fails_witness :
    handleUnwatch ⟨[("e1", ⟨"e1", "chan", ["u1"], 5, ⟨"e1", 5, true, false, true⟩⟩)],
        [⟨"e1", "chan", encodeStringList ["u1"], 5⟩]⟩ "e2" =
      (⟨[("e1", ⟨"e1", "chan", ["u1"], 5, ⟨"e1", 5, true, false, true⟩⟩)],
        [⟨"e1", "chan", encodeStringList ["u1"], 5⟩]⟩, [], .notWatching) :=
  unregister_unknown_fails
    ⟨[("e1", ⟨"e1", "chan", ["u1"], 5, ⟨"e1", 5, true, false, true⟩⟩)],
      [⟨"e1", "chan", encodeStringList ["u1"], 5⟩]⟩ "e2" (by decide)

/-- C1: evaluation at the failing input.  `notifyTickets` forwards the report
(the `sentMessage` action) but returns the state unchanged: the watch for
`"e1"` is still in the active map and its row is still in the store.  The
code never retires a watch on successful notification, contrary to the spec
and to the bot's own `/watch` reply text, which promises that the job "stops
automatically when tickets are found". -/
theorem notifyTickets_does_not_retire :
    notifyTickets ⟨[("e1", ⟨"e1", "chan", ["u1"], 5, ⟨"e1", 5, true, true, true⟩⟩)],
        [⟨"e1", "chan", encodeStringList ["u1"], 5⟩]⟩ "e1" ⟨"e1", .int 5, 2, .int 4, 90, [1]⟩ =
      (⟨[("e1", ⟨"e1", "chan", ["u1"], 5, ⟨"e1", 5, true, true, true⟩⟩)],
        [⟨"e1", "chan", encodeStringList ["u1"], 5⟩]⟩,
        [.sentMessage "chan" ⟨"e1", .int 5, 2, .int 4, 90, [1]⟩]) ∧
    mapGet (notifyTickets ⟨[("e1", ⟨"e1", "chan", ["u1"], 5, ⟨"e1", 5, true, true, true⟩⟩)],
        [⟨"e1", "chan", encodeStringList ["u1"], 5⟩]⟩ "e1"
        ⟨"e1", .int 5, 2, .int 4, 90, [1]⟩).1.watches "e1" =
      some ⟨"e1", "chan", ["u1"], 5, ⟨"e1", 5, true, true, true⟩⟩ ∧
    (notifyTickets ⟨[("e1", ⟨"e1", "chan", ["u1"], 5, ⟨"e1", 5, true, true, true⟩⟩)],
        [⟨"e1", "chan", encodeStringList ["u1"], 5⟩]⟩ "e1"
        ⟨"e1", .int 5, 2, .int 4, 90, [1]⟩).1.store =
      [⟨"e1", "chan", encodeStringList ["u1"], 5⟩] :=
  ⟨rfl, rfl, rfl⟩
